import Mathlib

/-!
Verification of the client-zip streaming ZIP encoder against its
natural-language specification.

The top-level module (`index.ts`) is embedded directly; the binary-format
core (`zip.ts` and friends: the stream assembler, the length predictor,
the name/date encoders) is not part of the visible sources, so it is
modelled from the specification, faithful to its words: record layouts
follow the standard ZIP wire format the spec mandates (signatures
PK\x03\x04 / PK\x01\x02 / PK\x05\x06 / PK\x06\x06 / PK\x06\x07 /
PK\x07\x08, stored compression, Zip64 extra field 0x0001, extended
timestamp 0x5455), the Zip64 width rules follow spec section 4.3, and the
assembler / predictor walk the member sequence exactly as sections 4.4
and 4.5 describe.

All machine integers are Nat with explicit little-endian byte splitting;
the emitted stream is a list of tagged records whose payloads are byte
lists, so that both total length and individual header fields can be
inspected.
-/

/-- Little-endian 2-byte encoding of a 16-bit field. -/
def le16 (n : Nat) : List Nat := [n % 256, n / 256 % 256]

/-- Little-endian 4-byte encoding of a 32-bit field. -/
def le32 (n : Nat) : List Nat :=
  [n % 256, n / 256 % 256, n / 65536 % 256, n / 16777216 % 256]

/-- Little-endian 8-byte encoding of a 64-bit field. -/
def le64 (n : Nat) : List Nat := le32 (n % 4294967296) ++ le32 (n / 4294967296)

theorem le16_length (n : Nat) : (le16 n).length = 2 := rfl

theorem le32_length (n : Nat) : (le32 n).length = 4 := rfl

theorem le64_length (n : Nat) : (le64 n).length = 8 := by
  simp [le64, le32]

/-- One step of the standard CRC-32 bit loop (polynomial 0xEDB88320). -/
def crc32Bit (c : Nat) : Nat :=
  if c % 2 = 1 then Nat.xor (c / 2) 0xEDB88320 else c / 2

/-- Fold one byte into a running CRC-32 accumulator. -/
def crc32Update (c : Nat) (byte : Nat) : Nat :=
  crc32Bit (crc32Bit (crc32Bit (crc32Bit
    (crc32Bit (crc32Bit (crc32Bit (crc32Bit (Nat.xor c (byte % 256)))))))))

/-- Modelled from the spec: the CRC-32 checksum the assembler folds over a
member's bytes while draining its source (section 4.4 Data). -/
def crc32 (bytes : List Nat) : Nat :=
  Nat.xor (bytes.foldl crc32Update 0xFFFFFFFF) 0xFFFFFFFF

theorem crc32_nil : crc32 [] = 0 := by decide

/-- Modelled from the spec: the normalized view of one archive member
(section 3 EntryDescriptor).  `declaredSize = some n` is Known(n),
`none` is Unknown; `byteSource` is the member's raw bytes, consulted by
the encoder only. -/
structure EntryDescriptor where
  nameBytes : List Nat
  utf8Flag : Bool
  dosDateTime : Nat
  preciseTimestamp : Option Int
  declaredSize : Option Nat
  byteSource : List Nat
  deriving Repr, DecidableEq

/-- A descriptor whose name ends in a path separator is a directory member
(section 3: trailing separator means directory entry, no data). -/
def isDirectory (e : EntryDescriptor) : Bool :=
  e.nameBytes.getLast? = some 0x2F

/-- Effective size of a member: directory members contribute zero size
(section 4.4); other members carry their declared size. -/
def effSize (e : EntryDescriptor) : Option Nat :=
  if isDirectory e then some 0 else e.declaredSize

/-- Effective data of a member: directory members skip Data entirely
(section 4.4). -/
def effData (e : EntryDescriptor) : List Nat :=
  if isDirectory e then [] else e.byteSource

/-- Modelled from the spec, section 4.3: size width rule, Zip64 triggered
when the declared size is Known and at least 0xFFFFFFFF, or Unknown. -/
def needsZip64Size (s : Option Nat) : Bool :=
  match s with
  | none => true
  | some n => decide (0xFFFFFFFF ≤ n)

/-- Modelled from the spec, section 4.3: offset width rule, Zip64 once a
member's start offset could exceed 0xFFFFFFFE. -/
def bigOffset (off : Nat) : Bool :=
  decide (0xFFFFFFFE < off)

/-- Legacy 32-bit size field of a local header: the sentinel 0xFFFFFFFF
when Zip64 width is required, otherwise the known size (section 4.3). -/
def legacySizeField (s : Option Nat) : Nat :=
  if needsZip64Size s then 0xFFFFFFFF else s.getD 0

/-- General-purpose bit flags: bit 3 when a trailing data descriptor
follows (size unknown up front), bit 11 when the name is UTF-8
(section 6). -/
def localFlags (e : EntryDescriptor) : Nat :=
  (if effSize e = none then 8 else 0) + (if e.utf8Flag then 0x800 else 0)

/-- Version needed to extract: 45 when Zip64 structures are used for this
member, 20 otherwise. -/
def versionNeeded (e : EntryDescriptor) : Nat :=
  if needsZip64Size (effSize e) then 45 else 20

/-- Extended-timestamp extra field (header id 0x5455), present when a
precise timestamp exists (sections 4.2 and 6): id, data size 5, flags
byte 1, signed seconds-since-epoch. -/
def tsExtra (t : Option Int) : List Nat :=
  match t with
  | none => []
  | some sec => [0x55, 0x54, 0x05, 0x00, 0x01] ++ le32 (sec % 4294967296).toNat

/-- Zip64 extra field of a local header (id 0x0001, 16 data bytes holding
the uncompressed and compressed sizes), reserved exactly when the size
width rule fires (section 4.3); sizes not yet known are written as 0. -/
def zip64LocalExtra (e : EntryDescriptor) : List Nat :=
  if needsZip64Size (effSize e) then
    [0x01, 0x00, 0x10, 0x00] ++ le64 ((effSize e).getD 0) ++ le64 ((effSize e).getD 0)
  else []

/-- Extra-field bytes of a local header. -/
def localExtra (e : EntryDescriptor) : List Nat :=
  zip64LocalExtra e ++ tsExtra e.preciseTimestamp

/-- Modelled from the spec, section 4.4 Header: the local file header,
signature PK 03 04, version needed, flags, stored method, DOS timestamp,
CRC field (never patched in place, so written 0; the true CRC goes to
the descriptor or the central directory), legacy size fields with the
Zip64 sentinel when widened, name length, extra length, name, extra. -/
def localHeaderBytes (e : EntryDescriptor) : List Nat :=
  [0x50, 0x4B, 0x03, 0x04]
  ++ le16 (versionNeeded e)
  ++ le16 (localFlags e)
  ++ le16 0
  ++ le32 e.dosDateTime
  ++ le32 0
  ++ le32 (legacySizeField (effSize e))
  ++ le32 (legacySizeField (effSize e))
  ++ le16 e.nameBytes.length
  ++ le16 (localExtra e).length
  ++ e.nameBytes
  ++ localExtra e

/-- Modelled from the spec, section 4.4 DescriptorIfUnknownSize: trailing
record with signature PK 07 08, final CRC-32, and the now-known sizes in
Zip64 width. -/
def descriptorBytes (crc size : Nat) : List Nat :=
  [0x50, 0x4B, 0x07, 0x08] ++ le32 crc ++ le64 size ++ le64 size

/-- Zip64 extra field of a central record: only the overflowing fields are
included, per the independent size and offset width rules of
section 4.3. -/
def zip64CentralExtra (e : EntryDescriptor) (offset size : Nat) : List Nat :=
  if needsZip64Size (effSize e) || bigOffset offset then
    [0x01, 0x00]
    ++ le16 ((if needsZip64Size (effSize e) then 16 else 0)
             + (if bigOffset offset then 8 else 0))
    ++ (if needsZip64Size (effSize e) then le64 size ++ le64 size else [])
    ++ (if bigOffset offset then le64 offset else [])
  else []

/-- Extra-field bytes of a central directory record. -/
def centralExtra (e : EntryDescriptor) (offset size : Nat) : List Nat :=
  zip64CentralExtra e offset size ++ tsExtra e.preciseTimestamp

/-- Modelled from the spec, section 4.4 CentralDirectory: one record per
member, signature PK 01 02, same name/time/size information as the local
header plus the final CRC and the member's start offset (sentinel when
the offset width rule fires). -/
def centralBytes (e : EntryDescriptor) (offset crc size : Nat) : List Nat :=
  [0x50, 0x4B, 0x01, 0x02]
  ++ le16 45
  ++ le16 (versionNeeded e)
  ++ le16 (localFlags e)
  ++ le16 0
  ++ le32 e.dosDateTime
  ++ le32 crc
  ++ le32 (if needsZip64Size (effSize e) then 0xFFFFFFFF else size)
  ++ le32 (if needsZip64Size (effSize e) then 0xFFFFFFFF else size)
  ++ le16 e.nameBytes.length
  ++ le16 (centralExtra e offset size).length
  ++ le16 0
  ++ le16 0
  ++ le16 0
  ++ le32 0
  ++ le32 (if bigOffset offset then 0xFFFFFFFF else offset)
  ++ e.nameBytes
  ++ centralExtra e offset size

/-- Classic end-of-central-directory record, signature PK 05 06, with
sentinel values in fields that overflow (section 4.3). -/
def eocdBytes (count cdSize cdOffset : Nat) : List Nat :=
  [0x50, 0x4B, 0x05, 0x06]
  ++ le16 0
  ++ le16 0
  ++ le16 (min count 0xFFFF)
  ++ le16 (min count 0xFFFF)
  ++ le32 (min cdSize 0xFFFFFFFF)
  ++ le32 (min cdOffset 0xFFFFFFFF)
  ++ le16 0

/-- Zip64 end-of-central-directory record, signature PK 06 06. -/
def zip64EndBytes (count cdSize cdOffset : Nat) : List Nat :=
  [0x50, 0x4B, 0x06, 0x06]
  ++ le64 44
  ++ le16 45
  ++ le16 45
  ++ le32 0
  ++ le32 0
  ++ le64 count
  ++ le64 count
  ++ le64 cdSize
  ++ le64 cdOffset

/-- Zip64 end-of-central-directory locator, signature PK 06 07. -/
def zip64LocatorBytes (cdSize cdOffset : Nat) : List Nat :=
  [0x50, 0x4B, 0x06, 0x07] ++ le32 0 ++ le64 (cdOffset + cdSize) ++ le32 1

/-- One tagged chunk of the assembler's output stream: the record kinds of
section 4.4's state machine. -/
inductive Record where
  | localHeader (b : List Nat)
  | fileData (b : List Nat)
  | dataDescriptor (b : List Nat)
  | centralDirRecord (b : List Nat)
  | zip64EndRecord (b : List Nat)
  | zip64Locator (b : List Nat)
  | endOfCentralDir (b : List Nat)
  deriving Repr, DecidableEq

/-- Payload bytes of a record. -/
def Record.bytes : Record → List Nat
  | .localHeader b => b
  | .fileData b => b
  | .dataDescriptor b => b
  | .centralDirRecord b => b
  | .zip64EndRecord b => b
  | .zip64Locator b => b
  | .endOfCentralDir b => b

/-- Whether a record is a central directory record. -/
def Record.isCentralDir : Record → Bool
  | .centralDirRecord _ => true
  | _ => false

/-- Total number of bytes in a trace of records. -/
def traceLength (t : List Record) : Nat :=
  (t.map (fun r => r.bytes.length)).sum

theorem traceLength_nil : traceLength [] = 0 := rfl

theorem traceLength_append (s t : List Record) :
    traceLength (s ++ t) = traceLength s + traceLength t := by
  simp [traceLength]

/-- The errors of section 7 that the embedded pipeline can signal. -/
inductive ZipError where
  | sizeMismatch
  | unknownSizeInPredictor
  deriving Repr, DecidableEq

/-- Modelled from the spec, section 3 ArchiveState: running byte offset,
accumulated central directory records, member count, and the flag
recording that some member required Zip64. -/
structure AsmState where
  offset : Nat
  centrals : List (List Nat)
  count : Nat
  memberZip64 : Bool
  deriving Repr, DecidableEq

/-- Initial archive state. -/
def initAsmState : AsmState := ⟨0, [], 0, false⟩

/-- Modelled from the spec, section 4.3: whether the archive-level end
record must be the Zip64 variant, decided from the final flags (any
member required Zip64, entry count over 16 bits, central-directory
size or offset over 32 bits). -/
def archiveZip64 (memberZip64 : Bool) (count cdSize cdOffset : Nat) : Bool :=
  memberZip64 || decide (0xFFFF < count)
    || decide (0xFFFFFFFE < cdSize) || decide (0xFFFFFFFE < cdOffset)

/-- Modelled from the spec, section 4.4 member machine: the records one
member emits, in order.  Header always; Data unless the member is a
directory; DescriptorIfUnknownSize when the size was unknown up front.
A Known-size member whose source yielded a different byte count is the
fatal SizeMismatch of section 7, signalled by `asmMemberNext`. -/
def asmMemberRecs (e : EntryDescriptor) : List Record :=
  Record.localHeader (localHeaderBytes e) ::
    ((if isDirectory e then [] else [Record.fileData (effData e)])
     ++ (match effSize e with
         | some _ => []
         | none => [Record.dataDescriptor
             (descriptorBytes (crc32 (effData e)) (effData e).length)]))

/-- State advance for one member: the Known-size contract is checked while
draining the source; on success the member's central directory record is
queued, the offset advanced past its local records, and the Zip64 flags
updated. -/
def asmMemberNext (st : AsmState) (e : EntryDescriptor) :
    Except ZipError AsmState :=
  match effSize e with
  | some n =>
    if (effData e).length ≠ n then .error .sizeMismatch
    else
      .ok {
        offset := st.offset + (localHeaderBytes e).length + n,
        centrals := st.centrals
          ++ [centralBytes e st.offset (crc32 (effData e)) n],
        count := st.count + 1,
        memberZip64 := st.memberZip64 || needsZip64Size (effSize e)
          || bigOffset st.offset }
  | none =>
    .ok {
      offset := st.offset + (localHeaderBytes e).length + (effData e).length
        + (descriptorBytes (crc32 (effData e)) (effData e).length).length,
      centrals := st.centrals
        ++ [centralBytes e st.offset (crc32 (effData e)) (effData e).length],
      count := st.count + 1,
      memberZip64 := st.memberZip64 || needsZip64Size (effSize e)
        || bigOffset st.offset }

/-- Process one member: the records it emits and the state advance. -/
def asmMember (st : AsmState) (e : EntryDescriptor) :
    List Record × Except ZipError AsmState :=
  (asmMemberRecs e, asmMemberNext st e)

/-- Run the member phase over the whole sequence, stopping at the first
error and keeping the records emitted so far. -/
def asmMembers : AsmState → List EntryDescriptor → List Record × Except ZipError AsmState
  | st, [] => ([], Except.ok st)
  | st, e :: rest =>
    match asmMember st e with
    | (recs, Except.error err) => (recs, Except.error err)
    | (recs, Except.ok st2) =>
      let p := asmMembers st2 rest
      (recs ++ p.1, p.2)

/-- End-of-archive records: the Zip64 end record and locator when
required, then the classic end record (section 4.4 EndRecord). -/
def endRecords (z64 : Bool) (count cdSize cdOffset : Nat) : List Record :=
  (if z64 then
    [Record.zip64EndRecord (zip64EndBytes count cdSize cdOffset),
     Record.zip64Locator (zip64LocatorBytes cdSize cdOffset)]
  else [])
  ++ [Record.endOfCentralDir (eocdBytes count cdSize cdOffset)]

/-- Modelled from the spec, sections 4.4 and 2 (StreamAssembler): the full
archive-level machine.  On success the trace is the member records, the
central directory, and the end records; on failure the trace is what was
emitted before the error, which ends the stream as the error signal. -/
def loadFiles (entries : List EntryDescriptor) : List Record × Option ZipError :=
  match asmMembers initAsmState entries with
  | (recs, Except.error err) => (recs, some err)
  | (recs, Except.ok st) =>
    let cdSize := (st.centrals.map List.length).sum
    let z64 := archiveZip64 st.memberZip64 st.count cdSize st.offset
    (recs ++ st.centrals.map Record.centralDirRecord
          ++ endRecords z64 st.count cdSize st.offset, none)

/-- Total bytes of `loadFiles`, the assembler's emitted byte count. -/
def makeZipLength (entries : List EntryDescriptor) : Nat :=
  traceLength (loadFiles entries).1

/-- Modelled from the spec, section 3: the LengthPredictor's accounting
state, mirroring the assembler's flags with a running total split into
the local-section offset and the central-directory size. -/
structure PredState where
  offset : Nat
  cdSize : Nat
  count : Nat
  memberZip64 : Bool
  deriving Repr, DecidableEq

/-- Initial predictor state. -/
def initPredState : PredState := ⟨0, 0, 0, false⟩

/-- Length of a local header computed from metadata alone. -/
def localHeaderLen (e : EntryDescriptor) : Nat :=
  30 + e.nameBytes.length + (localExtra e).length

/-- Length of a central directory record computed from metadata alone. -/
def centralLen (e : EntryDescriptor) (offset size : Nat) : Nat :=
  46 + e.nameBytes.length + (centralExtra e offset size).length

/-- Length of the end-of-archive records. -/
def endLen (z64 : Bool) : Nat :=
  (if z64 then 76 else 0) + 22

/-- Modelled from the spec, section 4.5: the predictor's per-member step.
A member with Unknown declared size is invalid input; otherwise add the
local header, the data, and the central record sizes, with the same
running-offset bookkeeping the encoder keeps. -/
def predMember (st : PredState) (e : EntryDescriptor) : Except ZipError PredState :=
  match effSize e with
  | none => .error .unknownSizeInPredictor
  | some n =>
    .ok {
      offset := st.offset + localHeaderLen e + n,
      cdSize := st.cdSize + centralLen e st.offset n,
      count := st.count + 1,
      memberZip64 := st.memberZip64 || needsZip64Size (effSize e)
        || bigOffset st.offset }

/-- Fold the predictor over the member sequence. -/
def predMembers : PredState → List EntryDescriptor → Except ZipError PredState
  | st, [] => Except.ok st
  | st, e :: rest =>
    match predMember st e with
    | Except.error err => Except.error err
    | Except.ok st2 => predMembers st2 rest

/-- Modelled from the spec, section 4.5 (`contentLength` in `zip.ts`,
called by `predictLength`): the exact total byte count of the archive
for metadata-only descriptors, or a usage error when any size is
Unknown. -/
def contentLength (entries : List EntryDescriptor) : Except ZipError Nat :=
  match predMembers initPredState entries with
  | Except.error err => Except.error err
  | Except.ok st =>
    Except.ok (st.offset + st.cdSize
      + endLen (archiveZip64 st.memberZip64 st.count st.cdSize st.offset))

/-- A member honours the Known-size contract of section 3: its effective
size is Known and its effective data has exactly that many bytes
(directory members satisfy this trivially with size 0). -/
def Honest (e : EntryDescriptor) : Prop :=
  ∃ n, effSize e = some n ∧ (effData e).length = n

/-- One byte of a multi-byte UTF-8 sequence: 0x80 to 0xBF. -/
def isCont (b : Nat) : Bool := decide (0x80 ≤ b) && decide (b ≤ 0xBF)

/-- Modelled from the spec, section 4.1: the valid-UTF-8 test over raw
name bytes used by the auto-detect policy (RFC 3629 table). -/
def validUTF8 : List Nat → Bool
  | [] => true
  | b :: rest =>
    if b ≤ 0x7F then validUTF8 rest
    else if 0xC2 ≤ b ∧ b ≤ 0xDF then
      match rest with
      | c :: rest2 => isCont c && validUTF8 rest2
      | [] => false
    else if b = 0xE0 then
      match rest with
      | c :: d :: rest2 =>
        decide (0xA0 ≤ c) && decide (c ≤ 0xBF) && isCont d && validUTF8 rest2
      | _ => false
    else if (0xE1 ≤ b ∧ b ≤ 0xEC) ∨ b = 0xEE ∨ b = 0xEF then
      match rest with
      | c :: d :: rest2 => isCont c && isCont d && validUTF8 rest2
      | _ => false
    else if b = 0xED then
      match rest with
      | c :: d :: rest2 =>
        decide (0x80 ≤ c) && decide (c ≤ 0x9F) && isCont d && validUTF8 rest2
      | _ => false
    else if b = 0xF0 then
      match rest with
      | c :: d :: f :: rest2 =>
        decide (0x90 ≤ c) && decide (c ≤ 0xBF) && isCont d && isCont f
          && validUTF8 rest2
      | _ => false
    else if 0xF1 ≤ b ∧ b ≤ 0xF3 then
      match rest with
      | c :: d :: f :: rest2 => isCont c && isCont d && isCont f && validUTF8 rest2
      | _ => false
    else if b = 0xF4 then
      match rest with
      | c :: d :: f :: rest2 =>
        decide (0x80 ≤ c) && decide (c ≤ 0x8F) && isCont d && isCont f
          && validUTF8 rest2
      | _ => false
    else false

/-- UTF-8 bytes of a textual name. -/
def utf8Bytes (s : String) : List Nat :=
  s.toUTF8.toList.map (fun b => b.toNat)

/-- A filename as given by the caller: text, or raw bytes (an ArrayBuffer
or ArrayBufferView). -/
inductive NameInput where
  | text (s : String)
  | raw (b : List Nat)
  deriving Repr

/-- Modelled from the spec, section 4.1 NameEncoder, with the tri-state
`buffersAreUTF8` policy documented on `Options` in `index.ts`: a textual
name is UTF-8 encoded and always flagged; raw bytes pass through, with
the flag forced on, forced off, or auto-detected by the valid-UTF-8
test. -/
def encodeName (input : NameInput) (buffersAreUTF8 : Option Bool) :
    List Nat × Bool :=
  match input with
  | .text s => (utf8Bytes s, true)
  | .raw b =>
    match buffersAreUTF8 with
    | some policy => (b, policy)
    | none => (b, validUTF8 b)

/-- A modification instant, as the calendar components of a JS Date. -/
structure Instant where
  year : Nat
  month : Nat
  day : Nat
  hour : Nat
  minute : Nat
  second : Nat
  deriving Repr, DecidableEq

/-- Modelled from the spec, section 4.2: out-of-range instants clamp to
the nearest representable DOS bound, 1980-01-01 00:00:00 below and
2107-12-31 23:59:58 above. -/
def clampInstant (t : Instant) : Instant :=
  if t.year < 1980 then ⟨1980, 1, 1, 0, 0, 0⟩
  else if 2107 < t.year then ⟨2107, 12, 31, 23, 59, 58⟩
  else t

/-- Modelled from the spec, section 4.2 DateEncoder: the two 16-bit DOS
date and time fields (day, month, year-1980; seconds/2, minutes, hours),
total, after clamping. -/
def dosDateTimePair (t : Instant) : Nat × Nat :=
  let c := clampInstant t
  (c.day + c.month * 32 + (c.year - 1980) * 512,
   c.second / 2 + c.minute * 32 + c.hour * 2048)

/-- The `options.length` value as JavaScript sees it: absent, a number
(modelled as a rational, so that non-integer values are representable),
or a bigint. -/
inductive JSLength where
  | undef
  | num (q : Rat)
  | big (i : Int)
  deriving Repr

/-- Embedded from `index.ts` line 74: the Content-Length header derived
from `options.length` alone.  The header is set exactly when
`(typeof length === "bigint" || Number.isInteger(length)) && length > 0`,
with `String(length)` as its value. -/
def lengthHeader (l : JSLength) : Option String :=
  match l with
  | .undef => none
  | .num q => if q.den = 1 ∧ 0 < q then some (toString q.num) else none
  | .big i => if 0 < i then some (toString i) else none

/-- The options of `downloadZip` that decide its Content-Length header,
with `metadata` already normalized to entry descriptors (the
normalization layer is external to the core, spec section 6). -/
structure DZOptions where
  length : JSLength
  metadata : Option (List EntryDescriptor)

/-- Embedded from `index.ts` lines 73-75: the Content-Length header of the
Response returned by `downloadZip`.  Line 74 sets it from
`options.length`; line 75 overwrites it with
`String(predictLength(options.metadata))` whenever metadata is given.
`predictLength` throwing (Unknown size in the predictor) propagates, in
which case no Response is produced. -/
def downloadZipContentLength (o : DZOptions) : Except ZipError (Option String) :=
  match o.metadata with
  | none => Except.ok (lengthHeader o.length)
  | some m =>
    match contentLength m with
    | Except.error err => Except.error err
    | Except.ok n => Except.ok (some (toString n))

theorem localHeaderBytes_length (e : EntryDescriptor) :
    (localHeaderBytes e).length = localHeaderLen e := by
  simp [localHeaderBytes, localHeaderLen, le16, le32]
  omega

theorem centralBytes_length (e : EntryDescriptor) (offset crc size : Nat) :
    (centralBytes e offset crc size).length = centralLen e offset size := by
  simp [centralBytes, centralLen, le16, le32]
  omega

theorem descriptorBytes_length (crc size : Nat) :
    (descriptorBytes crc size).length = 24 := by
  simp [descriptorBytes, le32, le64]

theorem eocdBytes_length (count cdSize cdOffset : Nat) :
    (eocdBytes count cdSize cdOffset).length = 22 := by
  simp [eocdBytes, le16, le32]

theorem zip64EndBytes_length (count cdSize cdOffset : Nat) :
    (zip64EndBytes count cdSize cdOffset).length = 56 := by
  simp [zip64EndBytes, le16, le32, le64]

theorem zip64LocatorBytes_length (cdSize cdOffset : Nat) :
    (zip64LocatorBytes cdSize cdOffset).length = 20 := by
  simp [zip64LocatorBytes, le32, le64]

theorem endRecords_traceLength (z64 : Bool) (count cdSize cdOffset : Nat) :
    traceLength (endRecords z64 count cdSize cdOffset) = endLen z64 := by
  cases z64 <;>
    simp [endRecords, endLen, traceLength, Record.bytes, eocdBytes_length,
      zip64EndBytes_length, zip64LocatorBytes_length]

theorem centrals_traceLength (cs : List (List Nat)) :
    traceLength (cs.map Record.centralDirRecord) = (cs.map List.length).sum := by
  induction cs with
  | nil => rfl
  | cons c cs ih =>
    simp only [List.map_cons, traceLength, List.sum_cons] at ih ⊢
    exact congrArg (c.length + ·) ih

/-- The correspondence between the assembler's state and the predictor's
accounting state that keeps the two in lock-step (spec sections 3-4). -/
def StatesAgree (st : AsmState) (pst : PredState) : Prop :=
  pst.offset = st.offset ∧
  pst.cdSize = (st.centrals.map List.length).sum ∧
  pst.count = st.count ∧
  pst.memberZip64 = st.memberZip64

theorem asmMember_ok (st : AsmState) (e : EntryDescriptor) (n : Nat)
    (hn : effSize e = some n) (hlen : (effData e).length = n) :
    asmMember st e =
      (Record.localHeader (localHeaderBytes e) ::
        (if isDirectory e then [] else [Record.fileData (effData e)]),
       Except.ok {
         offset := st.offset + (localHeaderBytes e).length + n,
         centrals := st.centrals ++ [centralBytes e st.offset (crc32 (effData e)) n],
         count := st.count + 1,
         memberZip64 := st.memberZip64 || needsZip64Size (effSize e)
           || bigOffset st.offset }) := by
  rw [asmMember, asmMemberRecs, asmMemberNext]
  simp only [hn, hlen, ne_eq, not_true_eq_false, if_false, List.append_nil]

theorem asmMember_pred_agree (st : AsmState) (pst : PredState)
    (e : EntryDescriptor) (hR : StatesAgree st pst) (h : Honest e) :
    ∃ recs st2 pst2,
      asmMember st e = (recs, Except.ok st2) ∧
      predMember pst e = Except.ok pst2 ∧
      StatesAgree st2 pst2 ∧
      st2.offset = st.offset + traceLength recs := by
  obtain ⟨n, hn, hlen⟩ := h
  obtain ⟨h1, h2, h3, h4⟩ := hR
  have hpred : predMember pst e = Except.ok {
      offset := pst.offset + localHeaderLen e + n,
      cdSize := pst.cdSize + centralLen e pst.offset n,
      count := pst.count + 1,
      memberZip64 := pst.memberZip64 || needsZip64Size (effSize e)
        || bigOffset pst.offset } := by
    rw [predMember, hn]
  refine ⟨_, _, _, asmMember_ok st e n hn hlen, hpred, ⟨?_, ?_, ?_, ?_⟩, ?_⟩
  · simp [h1, localHeaderBytes_length]
  · simp [h2, h1, centralBytes_length]
  · simp [h3]
  · simp [h4, h1]
  · by_cases hd : isDirectory e
    · have hn0 : n = 0 := by simp [effSize, hd] at hn; omega
      simp [hd, traceLength, Record.bytes, hn0]
    · simp [hd, traceLength, Record.bytes, hlen]
      omega

theorem asmMembers_pred_agree (entries : List EntryDescriptor) :
    ∀ st pst, StatesAgree st pst → (∀ e ∈ entries, Honest e) →
    ∃ recs st2 pst2,
      asmMembers st entries = (recs, Except.ok st2) ∧
      predMembers pst entries = Except.ok pst2 ∧
      StatesAgree st2 pst2 ∧
      st2.offset = st.offset + traceLength recs := by
  induction entries with
  | nil =>
    intro st pst hR _
    exact ⟨[], st, pst, rfl, rfl, hR, by simp [traceLength]⟩
  | cons e rest ih =>
    intro st pst hR hall
    obtain ⟨recs1, st1, pst1, ha1, hp1, hR1, hoff1⟩ :=
      asmMember_pred_agree st pst e hR (hall e (by simp))
    obtain ⟨recs2, st2, pst2, ha2, hp2, hR2, hoff2⟩ :=
      ih st1 pst1 hR1 (fun x hx => hall x (by simp [hx]))
    refine ⟨recs1 ++ recs2, st2, pst2, ?_, ?_, hR2, ?_⟩
    · rw [asmMembers, ha1]
      dsimp only
      rw [ha2]
    · rw [predMembers, hp1]
      dsimp only
      exact hp2
    · rw [traceLength_append]
      omega

/-- Claim C1: for every finite sequence of entry descriptors in which
every member's size is Known (and the byte sources honour the Known-size
contract of spec section 3), the total number of bytes emitted by the
streaming encoder equals the value returned by the length predictor on
the same sequence, including every Zip64 and extra-field size decision
the encoder makes. -/
theorem makeZip_length_eq_predictLength (entries : List EntryDescriptor)
    (h : ∀ e ∈ entries, Honest e) :
    ∃ recs total,
      loadFiles entries = (recs, none) ∧
      contentLength entries = Except.ok total ∧
      traceLength recs = total := by
  obtain ⟨recs, st2, pst2, ha, hp, ⟨h1, h2, h3, h4⟩, hoff⟩ :=
    asmMembers_pred_agree entries initAsmState initPredState
      ⟨rfl, rfl, rfl, rfl⟩ h
  have hload : loadFiles entries =
      (recs ++ st2.centrals.map Record.centralDirRecord
        ++ endRecords
            (archiveZip64 st2.memberZip64 st2.count
              ((st2.centrals.map List.length).sum) st2.offset)
            st2.count ((st2.centrals.map List.length).sum) st2.offset,
       none) := by
    rw [loadFiles, ha]
  have hcl : contentLength entries =
      Except.ok (pst2.offset + pst2.cdSize
        + endLen (archiveZip64 pst2.memberZip64 pst2.count pst2.cdSize
            pst2.offset)) := by
    rw [contentLength, hp]
  refine ⟨_, _, hload, hcl, ?_⟩
  rw [traceLength_append, traceLength_append, centrals_traceLength,
    endRecords_traceLength, h1, h2, h3, h4]
  simp only [initAsmState] at hoff
  omega

theorem predMembers_unknown (entries : List EntryDescriptor) :
    ∀ pst, (∃ e ∈ entries, effSize e = none) →
    predMembers pst entries = Except.error ZipError.unknownSizeInPredictor := by
  induction entries with
  | nil => intro pst h; obtain ⟨e, he, _⟩ := h; simp at he
  | cons x rest ih =>
    intro pst h
    by_cases hx : effSize x = none
    · rw [predMembers, predMember, hx]
    · obtain ⟨e, he, hnone⟩ := h
      obtain ⟨n, hn⟩ := Option.ne_none_iff_exists'.mp hx
      rw [predMembers, predMember, hn]
      dsimp only
      apply ih
      rcases List.mem_cons.mp he with h1 | h1
      · exact absurd (h1 ▸ hnone) hx
      · exact ⟨e, h1, hnone⟩

/-- Claim C5: an input sequence containing a member whose size is Unknown
makes the length predictor fail with the usage error rather than return
an approximate total; an input whose members all have Known sizes (and
honest sources) gets the exact byte count of the stream the assembler
emits. -/
theorem predictLength_unknown_error (entries : List EntryDescriptor) :
    ((∃ e ∈ entries, effSize e = none) →
      contentLength entries = Except.error ZipError.unknownSizeInPredictor)
    ∧ ((∀ e ∈ entries, Honest e) →
      ∃ recs n, contentLength entries = Except.ok n ∧
        loadFiles entries = (recs, none) ∧ traceLength recs = n) := by
  constructor
  · intro h
    rw [contentLength, predMembers_unknown entries initPredState h]
  · intro h
    obtain ⟨recs, st2, pst2, ha, hp, ⟨h1, h2, h3, h4⟩, hoff⟩ :=
      asmMembers_pred_agree entries initAsmState initPredState
        ⟨rfl, rfl, rfl, rfl⟩ h
    have hload : loadFiles entries =
        (recs ++ st2.centrals.map Record.centralDirRecord
          ++ endRecords
              (archiveZip64 st2.memberZip64 st2.count
                ((st2.centrals.map List.length).sum) st2.offset)
              st2.count ((st2.centrals.map List.length).sum) st2.offset,
         none) := by
      rw [loadFiles, ha]
    have hcl : contentLength entries =
        Except.ok (pst2.offset + pst2.cdSize
          + endLen (archiveZip64 pst2.memberZip64 pst2.count pst2.cdSize
              pst2.offset)) := by
      rw [contentLength, hp]
    refine ⟨_, _, hcl, hload, ?_⟩
    rw [traceLength_append, traceLength_append, centrals_traceLength,
      endRecords_traceLength, h1, h2, h3, h4]
    simp only [initAsmState] at hoff
    omega

/-- A member that violates the Known-size contract: a file member whose
declared size is Known(n) but whose source yields a different number of
bytes. -/
def SizeMismatched (e : EntryDescriptor) : Prop :=
  isDirectory e = false ∧ ∃ n, e.declaredSize = some n ∧ e.byteSource.length ≠ n

theorem asmMemberNext_error (st : AsmState) (e : EntryDescriptor)
    (err : ZipError) (h : asmMemberNext st e = Except.error err) :
    err = ZipError.sizeMismatch := by
  rw [asmMemberNext] at h
  cases heff : effSize e <;> rw [heff] at h <;> dsimp only at h
  · simp at h
  · split at h
    · injection h with h2
      exact h2.symm
    · simp at h

theorem asmMemberNext_mismatch (st : AsmState) (e : EntryDescriptor)
    (h : SizeMismatched e) :
    asmMemberNext st e = Except.error ZipError.sizeMismatch := by
  obtain ⟨hd, n, hn, hne⟩ := h
  have heff : effSize e = some n := by simp [effSize, hd, hn]
  have hdat : effData e = e.byteSource := by simp [effData, hd]
  rw [asmMemberNext, heff]
  simp [hdat, hne]

theorem asmMemberRecs_no_central (e : EntryDescriptor) :
    ∀ r ∈ asmMemberRecs e, r.isCentralDir = false := by
  intro r hr
  rw [asmMemberRecs] at hr
  rcases List.mem_cons.mp hr with rfl | hr2
  · rfl
  · rcases List.mem_append.mp hr2 with h1 | h1
    · by_cases hd : isDirectory e
      · simp [hd] at h1
      · simp [hd] at h1
        subst h1
        rfl
    · cases heff : effSize e <;> rw [heff] at h1 <;> dsimp only at h1
      · simp at h1
        subst h1
        rfl
      · simp at h1

theorem asmMembers_mismatch (entries : List EntryDescriptor) :
    ∀ st, (∃ e ∈ entries, SizeMismatched e) →
    ∃ recs, asmMembers st entries = (recs, Except.error ZipError.sizeMismatch) ∧
      ∀ r ∈ recs, r.isCentralDir = false := by
  induction entries with
  | nil =>
    intro st h
    obtain ⟨e, he, _⟩ := h
    simp at he
  | cons x rest ih =>
    intro st h
    by_cases hx : SizeMismatched x
    · refine ⟨asmMemberRecs x, ?_, asmMemberRecs_no_central x⟩
      rw [asmMembers, asmMember, asmMemberNext_mismatch st x hx]
    · obtain ⟨e, he, hme⟩ := h
      have he2 : e ∈ rest := by
        rcases List.mem_cons.mp he with rfl | h1
        · exact absurd hme hx
        · exact h1
      cases hnext : asmMemberNext st x with
      | error err =>
        have herr := asmMemberNext_error st x err hnext
        subst herr
        refine ⟨asmMemberRecs x, ?_, asmMemberRecs_no_central x⟩
        rw [asmMembers, asmMember, hnext]
      | ok st1 =>
        obtain ⟨recs2, hrun, hnc⟩ := ih st1 ⟨e, he2, hme⟩
        refine ⟨asmMemberRecs x ++ recs2, ?_, ?_⟩
        · rw [asmMembers, asmMember, hnext]
          dsimp only
          rw [hrun]
        · intro r hr
          rcases List.mem_append.mp hr with h1 | h1
          · exact asmMemberRecs_no_central x r h1
          · exact hnc r h1

/-- Claim C2: a member declared with a Known size whose byte source yields
a different number of bytes (fewer or more) aborts the whole encode with
SizeMismatch: the output ends with the error signal and no central
directory record is emitted for the archive. -/
theorem encode_size_mismatch (entries : List EntryDescriptor)
    (e : EntryDescriptor) (he : e ∈ entries) (hdir : isDirectory e = false)
    (n : Nat) (hn : e.declaredSize = some n) (hne : e.byteSource.length ≠ n) :
    ∃ recs, loadFiles entries = (recs, some ZipError.sizeMismatch) ∧
      ∀ r ∈ recs, r.isCentralDir = false := by
  obtain ⟨recs, hrun, hnc⟩ :=
    asmMembers_mismatch entries initAsmState ⟨e, he, hdir, n, hn, hne⟩
  exact ⟨recs, by rw [loadFiles, hrun], hnc⟩

theorem localHeaderBytes_sizeFields (e : EntryDescriptor) :
    ((localHeaderBytes e).drop 18).take 8 =
      le32 (legacySizeField (effSize e)) ++ le32 (legacySizeField (effSize e)) := by
  have hsplit : localHeaderBytes e =
      ([0x50, 0x4B, 0x03, 0x04] ++ le16 (versionNeeded e) ++ le16 (localFlags e)
        ++ le16 0 ++ le32 e.dosDateTime ++ le32 0)
      ++ ((le32 (legacySizeField (effSize e))
          ++ le32 (legacySizeField (effSize e)))
        ++ (le16 e.nameBytes.length ++ le16 (localExtra e).length
          ++ e.nameBytes ++ localExtra e)) := by
    simp [localHeaderBytes]
  rw [hsplit, List.drop_left' (by simp [le16, le32]),
    List.take_left' (by simp [le32])]

/-- Claim C3: a member declared exactly 0xFFFFFFFF gets Zip64-width size
fields, the legacy 32-bit fields carrying the sentinel 0xFFFFFFFF and
the Zip64 extra field carrying the true size; a member declared
0xFFFFFFFE does not; a member with Unknown declared size always gets
Zip64-width size fields in its local header. -/
theorem zip64_size_threshold (e : EntryDescriptor)
    (hdir : isDirectory e = false) :
    (e.declaredSize = some 0xFFFFFFFF →
      needsZip64Size (effSize e) = true ∧
      ((localHeaderBytes e).drop 18).take 8 = List.replicate 8 0xFF ∧
      zip64LocalExtra e =
        [0x01, 0x00, 0x10, 0x00] ++ le64 0xFFFFFFFF ++ le64 0xFFFFFFFF)
    ∧ (e.declaredSize = some 0xFFFFFFFE →
      needsZip64Size (effSize e) = false ∧ zip64LocalExtra e = [] ∧
      ((localHeaderBytes e).drop 18).take 8 =
        le32 0xFFFFFFFE ++ le32 0xFFFFFFFE)
    ∧ (e.declaredSize = none →
      needsZip64Size (effSize e) = true ∧
      ((localHeaderBytes e).drop 18).take 8 = List.replicate 8 0xFF) := by
  have heff : effSize e = e.declaredSize := by simp [effSize, hdir]
  refine ⟨fun h => ⟨?_, ?_, ?_⟩, fun h => ⟨?_, ?_, ?_⟩, fun h => ⟨?_, ?_⟩⟩
  · rw [heff, h]; decide
  · rw [localHeaderBytes_sizeFields, heff, h]; decide
  · rw [zip64LocalExtra, heff, h]; decide
  · rw [heff, h]; decide
  · rw [zip64LocalExtra, heff, h]; decide
  · rw [localHeaderBytes_sizeFields, heff, h]; decide
  · rw [heff, h]; rfl
  · rw [localHeaderBytes_sizeFields, heff, h]; decide

/-- Claim C4: a member whose size is not known up front has
general-purpose flag bit 3 set in its local header, is followed, after
its data, by a trailing data descriptor with the final CRC-32 and the
now-known sizes in Zip64 width, and never receives a Known-size local
header (its legacy size fields carry the Zip64 sentinel). -/
theorem unknown_size_member_descriptor (e : EntryDescriptor)
    (hdir : isDirectory e = false) (hsz : e.declaredSize = none) :
    Nat.testBit (localFlags e) 3 = true ∧
    asmMemberRecs e =
      [Record.localHeader (localHeaderBytes e),
       Record.fileData e.byteSource,
       Record.dataDescriptor
         (descriptorBytes (crc32 e.byteSource) e.byteSource.length)] ∧
    needsZip64Size (effSize e) = true ∧
    ((localHeaderBytes e).drop 18).take 8 = List.replicate 8 0xFF := by
  have heff : effSize e = none := by simp [effSize, hdir, hsz]
  have hdat : effData e = e.byteSource := by simp [effData, hdir]
  refine ⟨?_, ?_, ?_, ?_⟩
  · rw [localFlags, heff]
    cases hu : e.utf8Flag <;> simp <;> decide
  · rw [asmMemberRecs, heff, hdat]
    simp [hdir]
  · rw [heff]; rfl
  · rw [localHeaderBytes_sizeFields, heff]; decide

/-- Claim C7: a directory member (name ending in a path separator) emits
a local header and queues a central-directory record with zero size and
zero CRC, but emits zero data bytes and no data-descriptor record. -/
theorem directory_member (st : AsmState) (e : EntryDescriptor)
    (hdir : isDirectory e = true) :
    asmMemberRecs e = [Record.localHeader (localHeaderBytes e)] ∧
    asmMemberNext st e = Except.ok {
      offset := st.offset + (localHeaderBytes e).length,
      centrals := st.centrals ++ [centralBytes e st.offset 0 0],
      count := st.count + 1,
      memberZip64 := st.memberZip64 || needsZip64Size (effSize e)
        || bigOffset st.offset } := by
  have heff : effSize e = some 0 := by simp [effSize, hdir]
  have hdat : effData e = [] := by simp [effData, hdir]
  constructor
  · rw [asmMemberRecs, heff]
    simp [hdir]
  · rw [asmMemberNext, heff]
    simp [hdat, crc32_nil]

/-- Claim C8: a textual filename is always UTF-8 encoded and always
flagged; raw-byte names pass through unchanged, with the flag forced on
by policy `some true`, forced off by `some false`, and auto-detected by
the valid-UTF-8 test when the policy is absent (an invalid sequence
clears the flag; the two closing conjuncts ground the validator on a
valid non-ASCII sequence and an invalid byte). -/
theorem name_encoding_flag (s : String) (b : List Nat) (policy : Option Bool) :
    encodeName (NameInput.text s) policy = (utf8Bytes s, true) ∧
    (encodeName (NameInput.raw b) policy).1 = b ∧
    encodeName (NameInput.raw b) (some true) = (b, true) ∧
    encodeName (NameInput.raw b) (some false) = (b, false) ∧
    encodeName (NameInput.raw b) none = (b, validUTF8 b) ∧
    validUTF8 [0xC3, 0xA9] = true ∧
    validUTF8 [0xFF] = false := by
  refine ⟨rfl, ?_, rfl, rfl, rfl, by decide, by decide⟩
  cases policy <;> rfl

/-- Claim C9: the date encoder is total, producing a DOS date/time pair
of two 16-bit fields for every instant, and an instant outside the
1980-2107 range is clamped to the nearest representable bound rather
than failing. -/
theorem dos_datetime_clamps (t : Instant) (hm : t.month ≤ 12)
    (hd2 : t.day ≤ 31) (hh : t.hour ≤ 23) (hmin : t.minute ≤ 59)
    (hs : t.second ≤ 59) :
    (dosDateTimePair t).1 < 65536 ∧ (dosDateTimePair t).2 < 65536 ∧
    (t.year < 1980 → dosDateTimePair t = dosDateTimePair ⟨1980, 1, 1, 0, 0, 0⟩) ∧
    (2107 < t.year →
      dosDateTimePair t = dosDateTimePair ⟨2107, 12, 31, 23, 59, 58⟩) := by
  refine ⟨?_, ?_, ?_, ?_⟩
  · by_cases h1 : t.year < 1980
    · simp [dosDateTimePair, clampInstant, h1]
    · by_cases h2 : 2107 < t.year
      · simp [dosDateTimePair, clampInstant, h1, h2]
      · simp [dosDateTimePair, clampInstant, h1, h2]
        omega
  · by_cases h1 : t.year < 1980
    · simp [dosDateTimePair, clampInstant, h1]
    · by_cases h2 : 2107 < t.year
      · simp [dosDateTimePair, clampInstant, h1, h2]
      · simp [dosDateTimePair, clampInstant, h1, h2]
        omega
  · intro h
    simp [dosDateTimePair, clampInstant, h]
  · intro h
    have h2 : ¬ t.year < 1980 := by omega
    simp [dosDateTimePair, clampInstant, h, h2]

/-- Claim C6: when `options.metadata` is supplied (and the predictor
succeeds on it), the Response's Content-Length header is exactly the
string of `predictLength(options.metadata)`, whatever `options.length`
was: the metadata-derived value overwrites it (index.ts lines 74-75),
before the lazy body is consumed. -/
theorem downloadZip_metadata_content_length (o : DZOptions)
    (m : List EntryDescriptor) (n : Nat)
    (hm : o.metadata = some m) (hn : contentLength m = Except.ok n) :
    downloadZipContentLength o = Except.ok (some (toString n)) := by
  rw [downloadZipContentLength, hm]
  dsimp only
  rw [hn]

/-- Claim C10: with no metadata, the Content-Length header is set exactly
when `options.length` is a bigint or an integer number strictly greater
than zero; zero, negative, and non-integer lengths are silently ignored
(index.ts line 74). -/
theorem downloadZip_length_only (o : DZOptions) (hm : o.metadata = none) :
    downloadZipContentLength o = Except.ok (lengthHeader o.length) ∧
    ((lengthHeader o.length).isSome ↔
      (match o.length with
       | JSLength.undef => False
       | JSLength.num q => q.den = 1 ∧ 0 < q
       | JSLength.big i => 0 < i)) := by
  constructor
  · rw [downloadZipContentLength, hm]
  · cases o.length with
    | undef => simp [lengthHeader]
    | num q => by_cases h : q.den = 1 ∧ 0 < q <;> simp [lengthHeader, h]
    | big i => by_cases h : 0 < i <;> simp [lengthHeader, h]

/-- Sample file member: name "a.txt", Known size 5, content "hello". -/
def fileEntry : EntryDescriptor :=
  ⟨[0x61, 0x2E, 0x74, 0x78, 0x74], true, 0, none, some 5,
   [0x68, 0x65, 0x6C, 0x6C, 0x6F]⟩

/-- Sample directory member: name "dir/". -/
def dirEntry : EntryDescriptor :=
  ⟨[0x64, 0x69, 0x72, 0x2F], true, 0, none, none, []⟩

/-- Sample member declared Known(100) whose source yields 99 bytes. -/
def shortEntry : EntryDescriptor :=
  ⟨[0x62], false, 0, none, some 100, List.replicate 99 7⟩

/-- Sample unknown-size member with a 3-byte source. -/
def streamEntry : EntryDescriptor :=
  ⟨[0x63], false, 0, none, none, [1, 2, 3]⟩

/-- Sample member declared at the Zip64 size threshold. -/
def hugeEntry : EntryDescriptor :=
  ⟨[0x68], false, 0, none, some 0xFFFFFFFF, []⟩

theorem makeZip_length_eq_predictLength_witness :
    ∃ recs total,
      loadFiles [fileEntry, dirEntry] = (recs, none) ∧
      contentLength [fileEntry, dirEntry] = Except.ok total ∧
      traceLength recs = total :=
  makeZip_length_eq_predictLength [fileEntry, dirEntry] (by
    intro e he
    simp only [List.mem_cons, List.not_mem_nil, or_false] at he
    rcases he with rfl | rfl
    · exact ⟨5, by decide, by decide⟩
    · exact ⟨0, by decide, by decide⟩)

theorem encode_size_mismatch_witness :
    ∃ recs, loadFiles [shortEntry] = (recs, some ZipError.sizeMismatch) ∧
      ∀ r ∈ recs, r.isCentralDir = false :=
  encode_size_mismatch [shortEntry] shortEntry (by simp) (by decide) 100
    (by decide) (by decide)

theorem zip64_size_threshold_witness :
    needsZip64Size (effSize hugeEntry) = true ∧
    ((localHeaderBytes hugeEntry).drop 18).take 8 = List.replicate 8 0xFF ∧
    zip64LocalExtra hugeEntry =
      [0x01, 0x00, 0x10, 0x00] ++ le64 0xFFFFFFFF ++ le64 0xFFFFFFFF :=
  (zip64_size_threshold hugeEntry (by decide)).1 (by decide)

theorem unknown_size_member_descriptor_witness :
    Nat.testBit (localFlags streamEntry) 3 = true ∧
    asmMemberRecs streamEntry =
      [Record.localHeader (localHeaderBytes streamEntry),
       Record.fileData streamEntry.byteSource,
       Record.dataDescriptor
         (descriptorBytes (crc32 streamEntry.byteSource)
           streamEntry.byteSource.length)] ∧
    needsZip64Size (effSize streamEntry) = true ∧
    ((localHeaderBytes streamEntry).drop 18).take 8 = List.replicate 8 0xFF :=
  unknown_size_member_descriptor streamEntry (by decide) (by decide)

theorem predictLength_unknown_error_witness :
    contentLength [streamEntry] = Except.error ZipError.unknownSizeInPredictor ∧
    (∃ recs n, contentLength [fileEntry] = Except.ok n ∧
      loadFiles [fileEntry] = (recs, none) ∧ traceLength recs = n) :=
  ⟨(predictLength_unknown_error [streamEntry]).1
      ⟨streamEntry, by simp, by decide⟩,
   (predictLength_unknown_error [fileEntry]).2 (by
      intro e he
      simp only [List.mem_cons, List.not_mem_nil, or_false] at he
      subst he
      exact ⟨5, by decide, by decide⟩)⟩

theorem directory_member_witness :
    asmMemberRecs dirEntry = [Record.localHeader (localHeaderBytes dirEntry)] ∧
    asmMemberNext initAsmState dirEntry = Except.ok {
      offset := initAsmState.offset + (localHeaderBytes dirEntry).length,
      centrals := initAsmState.centrals
        ++ [centralBytes dirEntry initAsmState.offset 0 0],
      count := initAsmState.count + 1,
      memberZip64 := initAsmState.memberZip64
        || needsZip64Size (effSize dirEntry) || bigOffset initAsmState.offset } :=
  directory_member initAsmState dirEntry (by decide)

theorem dos_datetime_clamps_witness :
    (dosDateTimePair ⟨1975, 6, 15, 10, 30, 45⟩).1 < 65536 ∧
    (dosDateTimePair ⟨1975, 6, 15, 10, 30, 45⟩).2 < 65536 ∧
    ((1975 : Nat) < 1980 →
      dosDateTimePair ⟨1975, 6, 15, 10, 30, 45⟩
        = dosDateTimePair ⟨1980, 1, 1, 0, 0, 0⟩) ∧
    ((2107 : Nat) < 1975 →
      dosDateTimePair ⟨1975, 6, 15, 10, 30, 45⟩
        = dosDateTimePair ⟨2107, 12, 31, 23, 59, 58⟩) :=
  dos_datetime_clamps ⟨1975, 6, 15, 10, 30, 45⟩ (by decide) (by decide)
    (by decide) (by decide) (by decide)

theorem downloadZip_metadata_content_length_witness :
    downloadZipContentLength ⟨JSLength.num 42, some []⟩
      = Except.ok (some (toString 22)) :=
  downloadZip_metadata_content_length ⟨JSLength.num 42, some []⟩ [] 22 rfl rfl

theorem downloadZip_length_only_witness :
    downloadZipContentLength ⟨JSLength.num 3, none⟩
      = Except.ok (lengthHeader (JSLength.num 3)) ∧
    ((lengthHeader (JSLength.num 3)).isSome ↔
      ((3 : Rat).den = 1 ∧ (0 : Rat) < 3)) :=
  downloadZip_length_only ⟨JSLength.num 3, none⟩ rfl
